import Mathlib

set_option linter.unusedVariables false

/-!
Shallow embedding of the corgi workflow engine.

The scheduler (sched/sched.go) is embedded as pure functions over an explicit
state record.  Go maps are modelled by association lists over `String` keys:
`mapLookup` is the two-value map read, `mapGetD` the zero-value read, `mapSet`
the map write and `mapErase` the `delete` builtin.  External collaborators that
are not part of the repository sources (the variable calculator, the executors,
`dag.ResolveJob`) are parameters (oracles) of the embedding; the status tracker
primitives, which the repository only calls, are modelled from the spec where
noted.  Fallible code returns `Option` (with `none` standing for a Go panic) or
an `Except`.
-/

/-- Go map read, two-value form: `v, ok := m[k]`. -/
def mapLookup {α : Type} : List (String × α) → String → Option α
  | [], _ => none
  | p :: rest, k => if p.1 = k then some p.2 else mapLookup rest k

/-- Go map read with the zero value as default: `v := m[k]`. -/
def mapGetD {α : Type} (l : List (String × α)) (k : String) (d : α) : α :=
  (mapLookup l k).getD d

/-- Go map write `m[k] = v`: replace the first binding of `k`, append when absent. -/
def mapSet {α : Type} : List (String × α) → String → α → List (String × α)
  | [], k, v => [(k, v)]
  | p :: rest, k, v => if p.1 = k then (k, v) :: rest else p :: mapSet rest k v

/-- Go `delete(m, k)`. -/
def mapErase {α : Type} : List (String × α) → String → List (String × α)
  | [], _ => []
  | p :: rest, k => if p.1 = k then mapErase rest k else p :: mapErase rest k

/-- The keys of the association list are pairwise distinct, as in a Go map. -/
def KeysNodup {α : Type} (l : List (String × α)) : Prop :=
  (l.map Prod.fst).Nodup

/-- Job types (`dag.JobType`). -/
inductive JobType
  | DummyJob
  | ScriptJob
  | HadoopJob
  | HiveJob
  | OdpsJob
  deriving DecidableEq, Repr

/-- Job statuses (`dag.JobStatus`). -/
inductive JobStatus
  | NotStarted
  | Started
  | Finished
  | Failed
  deriving DecidableEq, Repr

/-- A DAG node (`dag.Job`).  Go calls the second field `Type`; that word is
reserved in Lean.  The mutable `Status` field lives in `SchedState.status`,
keyed by the job name: Go mutates it through the shared `*dag.Job` pointer, so
every read of `job.Status` anywhere in the scheduler sees the same cell. -/
structure Job where
  Name : String
  type : JobType
  Post : List String
  deriving DecidableEq, Repr

/-- Edge metadata (`dag.Relation`). -/
structure Relation where
  NonStrict : Bool
  deriving DecidableEq, Repr

/-- The static part of `dag.DAG`: `Jobs` and the nested `Relations` map.
`InDegrees`, which the scheduler mutates, lives in `SchedState`. -/
structure DAG where
  jobs : List (String × Job)
  relations : List (String × List (String × Relation))
  deriving DecidableEq, Repr

/-- `d.Relations[u][v]`: a missing outer key yields the nil map, whose reads
all miss. -/
def relLookup (rels : List (String × List (String × Relation))) (u v : String) :
    Option Relation :=
  match mapLookup rels u with
  | none => none
  | some inner => mapLookup inner v

/-- The scheduler's mutable state: `d.InDegrees`, the in-memory `Status` field
of every job (keyed by job name), `tracker.Fails`, and the tracker's persistent
status store. -/
structure SchedState where
  inDegrees : List (String × Int)
  status : List (String × JobStatus)
  fails : List (String × Nat)
  statuses : List (String × JobStatus)
  deriving DecidableEq, Repr

/-- Read a job's in-memory `Status` field (zero value `NotStarted`). -/
def statusGet (st : List (String × JobStatus)) (name : String) : JobStatus :=
  mapGetD st name JobStatus.NotStarted

/-- `this.tracker.Fails[name]` (zero value 0). -/
def failsGet (fails : List (String × Nat)) (name : String) : Nat :=
  mapGetD fails name 0

/-- The scan of `d.InDegrees` inside `Sched.genRunQueue` (sched.go:108-126),
iterating over the remaining entries.  `none` models the
`panic("no corresponding job")` when an in-degree entry has no job.  The
`log.Errorf` for jobs at max retry only logs and is omitted. -/
def genRunQueueGo (d : DAG) (maxRetry : Nat) (st : SchedState) :
    List (String × Int) → Option (List Job)
  | [] => some []
  | (name, indeg) :: rest =>
    match mapLookup d.jobs name with
    | none => none
    | some job =>
      match genRunQueueGo d maxRetry st rest with
      | none => none
      | some q =>
        if indeg = 0 ∧ statusGet st.status job.Name ≠ JobStatus.Finished ∧
            statusGet st.status job.Name ≠ JobStatus.Started ∧
            failsGet st.fails job.Name < maxRetry
        then some (job :: q)
        else some q

/-- `Sched.genRunQueue` (sched.go:108-126). -/
def genRunQueue (d : DAG) (maxRetry : Nat) (st : SchedState) : Option (List Job) :=
  genRunQueueGo d maxRetry st st.inDegrees

/-- A call the scheduler makes into the status tracker. -/
inductive TrackerOp
  | getStatusOp (name : String)
  | setStatusOp (name : String) (s : JobStatus)
  deriving DecidableEq, Repr

/-- Modelled from the spec: `status.StatusTracker.GetStatus` (the status
package is not under src/) returns the persisted status, or `NotStarted` if
none is recorded. -/
def trackerGetStatus (store : List (String × JobStatus)) (name : String) : JobStatus :=
  mapGetD store name JobStatus.NotStarted

/-- Modelled from the spec: `status.StatusTracker.SetStatus` writes
`job.Status` through to the persistent store. -/
def trackerSetStatus (store : List (String × JobStatus)) (name : String)
    (s : JobStatus) : List (String × JobStatus) :=
  mapSet store name s

/-- Result of dispatching one job: its final in-memory status, the persistent
store afterwards, and the tracker calls made on the way (`events`). -/
structure DispatchResult where
  status : JobStatus
  store : List (String × JobStatus)
  events : List TrackerOp
  deriving DecidableEq, Repr

/-- Per-job dispatch: the body of the worker goroutine in `Sched.runQueue`
(sched.go:134-185).  `resolveOk` and `execOk` are oracles for the outcomes of
`d.ResolveJob` and `jexec.Run(job)`, which live outside src/; `hasExec` is the
executor registry built in `NewSched`, and `none` models the panic when
`getExec` misses.  The `Builtins` updates (`SetBizdate`, `SetJobReport`) touch
no state any claim mentions and are omitted. -/
def dispatchJob (resolveOk execOk : String → Bool) (hasExec : JobType → Bool)
    (job : Job) (store : List (String × JobStatus)) : Option DispatchResult :=
  if resolveOk job.Name = false then
    some { status := JobStatus.Failed,
           store := trackerSetStatus store job.Name JobStatus.Failed,
           events := [TrackerOp.setStatusOp job.Name JobStatus.Failed] }
  else if job.type = JobType.DummyJob then
    some { status := JobStatus.Finished, store := store, events := [] }
  else if hasExec job.type = false then
    none
  else
    match trackerGetStatus store job.Name with
    | JobStatus.Finished =>
      some { status := JobStatus.Finished, store := store,
             events := [TrackerOp.getStatusOp job.Name] }
    | JobStatus.Started =>
      some { status := JobStatus.Started, store := store,
             events := [TrackerOp.getStatusOp job.Name] }
    | _ =>
      let store1 := trackerSetStatus store job.Name JobStatus.Started
      let final := if execOk job.Name then JobStatus.Finished else JobStatus.Failed
      some { status := final,
             store := trackerSetStatus store1 job.Name final,
             events := [TrackerOp.getStatusOp job.Name,
                        TrackerOp.setStatusOp job.Name JobStatus.Started,
                        TrackerOp.setStatusOp job.Name final] }

/-- `Sched.runQueue` (sched.go:128-187).  The workers run concurrently and are
joined by the `WaitGroup`; each one writes only its own job's status cell, and
tracker writes to distinct names commute, so the model applies them in queue
order. -/
def runQueue (resolveOk execOk : String → Bool) (hasExec : JobType → Bool) :
    List Job → SchedState → Option SchedState
  | [], st => some st
  | job :: rest, st =>
    match dispatchJob resolveOk execOk hasExec job st.statuses with
    | none => none
    | some r =>
      runQueue resolveOk execOk hasExec rest
        { st with status := mapSet st.status job.Name r.status, statuses := r.store }

/-- `Sched.updateFailCount` (sched.go:201-215). -/
def updateFailCount (st : SchedState) (job : Job) : SchedState :=
  match statusGet st.status job.Name with
  | JobStatus.Failed =>
    { st with fails :=
        match mapLookup st.fails job.Name with
        | none => mapSet st.fails job.Name 1
        | some n => mapSet st.fails job.Name (n + 1) }
  | JobStatus.Finished => { st with fails := mapErase st.fails job.Name }
  | _ => st

/-- The body of the loop over `job.Post` in `Sched.updateDependences`
(sched.go:217-234), for one successor `post`. -/
def updateDepStep (d : DAG) (maxRetry : Nat) (uName : String) (uStatus : JobStatus)
    (uFails : Nat) (ind : List (String × Int)) (post : String) :
    List (String × Int) :=
  let indeg := mapGetD ind post 0
  if indeg = 0 then ind
  else if uStatus = JobStatus.Finished then mapSet ind post (indeg - 1)
  else
    match relLookup d.relations uName post with
    | some relation =>
      if relation.NonStrict = true ∧ uStatus = JobStatus.Failed ∧ maxRetry ≤ uFails
      then mapSet ind post (indeg - 1)
      else ind
    | none => ind

/-- `Sched.updateDependences` (sched.go:217-234). -/
def updateDependences (d : DAG) (maxRetry : Nat) (st : SchedState) (job : Job) :
    SchedState :=
  { st with inDegrees :=
      (job.Post.foldl
        (updateDepStep d maxRetry job.Name (statusGet st.status job.Name)
          (failsGet st.fails job.Name))
        st.inDegrees) }

/-- The sequential post-wave bookkeeping inside `Sched.Run` (sched.go:85-88):
for each job of the wave, `updateFailCount` then `updateDependences`. -/
def postWave (d : DAG) (maxRetry : Nat) (q : List Job) (st : SchedState) : SchedState :=
  q.foldl (fun s job => updateDependences d maxRetry (updateFailCount s job) job) st

/-- Outcome of `Sched.Run`: `nil` or the `some job failed` error. -/
inductive RunResult
  | ok
  | someJobsFailed
  deriving DecidableEq, Repr

/-- The wave loop and final `Fails` check of `Sched.Run` (sched.go:77-102):
regenerate the queue, stop when it is empty, otherwise run the wave, do the
post-wave bookkeeping and repeat.  The loop of the Go code has no bound; `fuel`
only pays for the finitely many iterations a terminating run takes, and
exhausting it yields `none`, never a wrong result. -/
def runLoop (resolveOk execOk : String → Bool) (hasExec : JobType → Bool)
    (d : DAG) (maxRetry : Nat) : Nat → SchedState → Option (RunResult × SchedState)
  | 0, _ => none
  | fuel + 1, st =>
    match genRunQueue d maxRetry st with
    | none => none
    | some q =>
      if q.isEmpty then
        some ((if st.fails.isEmpty then RunResult.ok else RunResult.someJobsFailed), st)
      else
        match runQueue resolveOk execOk hasExec q st with
        | none => none
        | some st1 =>
          runLoop resolveOk execOk hasExec d maxRetry fuel (postWave d maxRetry q st1)

/-- `Sched.checkDAG` (sched.go:236-243): every job's type has an executor. -/
def checkDAG (hasExec : JobType → Bool) (d : DAG) : Bool :=
  d.jobs.all (fun p => hasExec p.2.type)

/-!
Embedding of the XML workflow parser (the `flow` package file under
src/unnamed/part_000).  The file system, `xml.Unmarshal`, the `calc`
calculator and the job validity checks are external and appear as oracles.
That file imports the standard `log` package, whose `Fatal`/`Fatalf`/`Panic`
exit or panic the process; `PAbort` records how a parse run aborts.
-/

/-- Flattened `XMLDep` (the `xml.Name` metadata field carries no data). -/
structure XMLDep where
  Res : String
  Var : List String
  deriving DecidableEq, Repr

/-- Flattened `XMLDo`. -/
structure XMLDo where
  Res : String
  Arg : List String
  deriving DecidableEq, Repr

/-- Flattened `XMLStep`.  Go calls the third and fourth fields `Dep` and `Do`. -/
structure XMLStep where
  Name : String
  Var : List String
  Dep : List XMLDep
  Do : List XMLDo
  deriving DecidableEq, Repr

/-- Flattened `XMLJob`.  Go calls the second field `Type`. -/
structure XMLJob where
  Name : String
  type : String
  Var : List String
  deriving DecidableEq, Repr

/-- A resolved variable map. -/
abbrev VarMap := List (String × String)

/-- A parsed job value (`Job` interface value produced by `NewODPSJob` or
`NewHadoopJob`, carrying its name and resolved vars). -/
structure JobV where
  type : String
  name : String
  var : VarMap
  deriving DecidableEq, Repr

/-- A parsed `Step`.  Nested `nil` results of recursive parses are appended as
`none`, exactly as the Go code appends nil pointers. -/
inductive Step
  | mk (Name : String) (Var : VarMap) (Do : List (Option JobV)) (Dep : List (Option Step))

/-- How a parse run aborts: `fatalExit` for `log.Fatal`/`log.Fatalf` (process
exit), `panicked e` for `panic(err)` with the calculator error `e`, `panicMsg`
for `log.Panic`/`panic` with a fixed message, `outOfFuel` when the modelled
recursion depth is exhausted. -/
inductive PAbort
  | fatalExit
  | panicked (e : String)
  | panicMsg (m : String)
  | outOfFuel
  deriving DecidableEq, Repr

deriving instance DecidableEq for Except

/-- One call into the calculator: the maps handed to `evalMap` (a `none` entry
is a nil map, which `AddVarMap` skips) and the result it returned. -/
structure EvalCall where
  args : List (Option VarMap)
  result : Except String VarMap
  deriving DecidableEq, Repr

/-- Oracles for the parser's external collaborators: reading+unmarshalling a
step or job file (`none` = read error, `some none` = unmarshal error), the
calculator behind `evalMap`, and `job.IsValid()`. -/
structure ParserOracles where
  readStep : String → Option (Option XMLStep)
  readJob : String → Option (Option XMLJob)
  eval : List (Option VarMap) → Except String VarMap
  isValid : String → String → VarMap → Bool

/-- `updateMapWithArray` (part_000:199-208): split each entry on `sep`; a
token count other than 2 hits `log.Fatalf` (process exit, modelled `none`). -/
def updateMapWithArray (dest : VarMap) : List String → String → Option VarMap
  | [], _ => some dest
  | v :: rest, sep =>
    match v.splitOn sep with
    | [k, value] => updateMapWithArray (mapSet dest k value) rest sep
    | _ => none

/-- `arrayToMap` (part_000:193-197). -/
def arrayToMap (array : List String) (sep : String) : Option VarMap :=
  updateMapWithArray [] array sep

/-- `parseJobFromFile` (part_000:139-187). -/
def parseJobFromFile (o : ParserOracles) (entry workdir : String)
    (preDefinedVars : Option VarMap) : Except PAbort (Option JobV × List EvalCall) :=
  let path := workdir ++ "/" ++ entry
  match o.readJob path with
  | none => Except.error PAbort.fatalExit
  | some none => Except.ok (none, [])
  | some (some j) =>
    if j.type = "odps" ∨ j.type = "hadoop" then
      match arrayToMap j.Var "=" with
      | none => Except.error PAbort.fatalExit
      | some localVar =>
        match o.eval [preDefinedVars, some localVar] with
        | Except.error e => Except.error (PAbort.panicked e)
        | Except.ok lv =>
          if o.isValid j.type j.Name lv then
            Except.ok (some ⟨j.type, j.Name, lv⟩,
              [⟨[preDefinedVars, some localVar], Except.ok lv⟩])
          else Except.error (PAbort.panicMsg "job is invalid")
    else Except.error (PAbort.panicMsg "unknown job type")

/-- The loop over `s.Do` in `parseStepFromFile` (part_000:105-121): evaluate
the do's local vars against the predefined and step scopes, then parse the
referenced job file with the resolved vars, appending its (possibly nil)
result. -/
def parseDos (o : ParserOracles) (workdir : String) (preDefinedVars : Option VarMap)
    (stepVar : VarMap) : List XMLDo → Except PAbort (List (Option JobV) × List EvalCall)
  | [] => Except.ok ([], [])
  | doItem :: rest =>
    match arrayToMap doItem.Arg "=" with
    | none => Except.error PAbort.fatalExit
    | some localVar =>
      match o.eval [preDefinedVars, some stepVar, some localVar] with
      | Except.error e => Except.error (PAbort.panicked e)
      | Except.ok lv =>
        match parseJobFromFile o doItem.Res workdir (some lv) with
        | Except.error a => Except.error a
        | Except.ok (jobOpt, lg) =>
          match parseDos o workdir preDefinedVars stepVar rest with
          | Except.error a => Except.error a
          | Except.ok (jobs, lg2) =>
            Except.ok (jobOpt :: jobs,
              ⟨[preDefinedVars, some stepVar, some localVar], Except.ok lv⟩ :: (lg ++ lg2))

/-- The loop over `s.Dep` in `parseStepFromFile` (part_000:123-137), with the
recursive step parse passed as `parseStep`. -/
def parseDeps
    (parseStep : String → Option VarMap → Except PAbort (Option Step × List EvalCall))
    (o : ParserOracles) (preDefinedVars : Option VarMap) (stepVar : VarMap) :
    List XMLDep → Except PAbort (List (Option Step) × List EvalCall)
  | [] => Except.ok ([], [])
  | dep :: rest =>
    match arrayToMap dep.Var "=" with
    | none => Except.error PAbort.fatalExit
    | some localVar =>
      match o.eval [preDefinedVars, some stepVar, some localVar] with
      | Except.error e => Except.error (PAbort.panicked e)
      | Except.ok lv =>
        match parseStep dep.Res (some lv) with
        | Except.error a => Except.error a
        | Except.ok (stepOpt, lg) =>
          match parseDeps parseStep o preDefinedVars stepVar rest with
          | Except.error a => Except.error a
          | Except.ok (steps, lg2) =>
            Except.ok (stepOpt :: steps,
              ⟨[preDefinedVars, some stepVar, some localVar], Except.ok lv⟩ :: (lg ++ lg2))

/-- `parseStepFromFile` (part_000:79-137).  Alongside the parsed step the
model returns the list of calculator calls performed, in call order. -/
def parseStepFromFile (o : ParserOracles) :
    Nat → String → String → Option VarMap → Except PAbort (Option Step × List EvalCall)
  | 0, _, _, _ => Except.error PAbort.outOfFuel
  | fuel + 1, entry, workdir, preDefinedVars =>
    let path := workdir ++ "/" ++ entry
    match o.readStep path with
    | none => Except.error PAbort.fatalExit
    | some none => Except.ok (none, [])
    | some (some s) =>
      match arrayToMap s.Var "=" with
      | none => Except.error PAbort.fatalExit
      | some var0 =>
        match o.eval [preDefinedVars, some var0] with
        | Except.error e => Except.error (PAbort.panicked e)
        | Except.ok stepVar =>
          match parseDos o workdir preDefinedVars stepVar s.Do with
          | Except.error a => Except.error a
          | Except.ok (dos, lg1) =>
            match parseDeps (fun e pre => parseStepFromFile o fuel e workdir pre) o
                preDefinedVars stepVar s.Dep with
            | Except.error a => Except.error a
            | Except.ok (deps, lg2) =>
              Except.ok (some (Step.mk s.Name stepVar dos deps),
                ⟨[preDefinedVars, some var0], Except.ok stepVar⟩ :: (lg1 ++ lg2))

/-- `xmlParser.ParseStepFromFile` (part_000:71-73): nil predefined vars. -/
def ParseStepEntry (o : ParserOracles) (fuel : Nat) (entry workdir : String) :
    Except PAbort (Option Step × List EvalCall) :=
  parseStepFromFile o fuel entry workdir none

/-- `xmlParser.ParseJobFromFile` (part_000:75-77): nil predefined vars. -/
def ParseJobEntry (o : ParserOracles) (entry workdir : String) :
    Except PAbort (Option JobV × List EvalCall) :=
  parseJobFromFile o entry workdir none

/-!
Embedding of `CmdExec` (task/exec/util.go:37-93).
-/

/-- What `cmd.Wait()` reports: `success` for a nil error (child exited 0),
`exitError sysOk code` for an `*exec.ExitError` (with `sysOk` telling whether
`Sys()` is a `syscall.WaitStatus` carrying `code`), or another error. -/
inductive WaitOutcome
  | success
  | exitError (sysOk : Bool) (code : Int)
  | otherError (e : String)
  deriving DecidableEq, Repr

/-- The externally determined events of one `CmdExec` run: pipe and start
errors, scanner errors while draining stderr/stdout, and the wait outcome. -/
structure CmdOracle where
  stdoutPipeErr : Option String
  stderrPipeErr : Option String
  startErr : Option String
  stderrScanErr : Option String
  stdoutScanErr : Option String
  wait : WaitOutcome
  deriving DecidableEq, Repr

/-- How a `CmdExec` call ends: `fatal` when a `log.Fatal`/`log.Fatalf` path is
hit, else `ret code err` for `return code, err`. -/
inductive CmdOutcome
  | fatal
  | ret (code : Int) (err : Option String)
  deriving DecidableEq, Repr

/-- `CmdExec` (task/exec/util.go:37-93).  Modelled from the spec: the `log`
package is not under src/ and its `Fatal`/`Fatalf` are process-exiting (spec
section 9), so every branch that calls them aborts with `fatal`.  Draining
stdout and stderr line by line only logs and is not modelled. -/
def CmdExec (o : CmdOracle) : CmdOutcome :=
  match o.stdoutPipeErr with
  | some _ => CmdOutcome.fatal
  | none =>
    match o.stderrPipeErr with
    | some _ => CmdOutcome.fatal
    | none =>
      match o.startErr with
      | some _ => CmdOutcome.fatal
      | none =>
        match o.stderrScanErr with
        | some _ => CmdOutcome.fatal
        | none =>
          match o.stdoutScanErr with
          | some _ => CmdOutcome.fatal
          | none =>
            match o.wait with
            | WaitOutcome.success => CmdOutcome.ret 0 none
            | WaitOutcome.exitError true code => CmdOutcome.ret code none
            | WaitOutcome.exitError false _ =>
              CmdOutcome.ret 0 (some "get exit status fail")
            | WaitOutcome.otherError _ => CmdOutcome.fatal

/-!
Derived condition and concrete inputs used by the verification below.
-/

/-- The condition under which one iteration of the `updateDependences` loop
decrements a successor `v`'s in-degree, given the predecessor's name, status
and fail count: the predecessor finished, or it failed with its retries
exhausted over a non-strict edge. -/
def unblocks (d : DAG) (maxRetry : Nat) (uName : String) (uStatus : JobStatus)
    (uFails : Nat) (v : String) : Bool :=
  if uStatus = JobStatus.Finished then true
  else
    match relLookup d.relations uName v with
    | some relation =>
      if relation.NonStrict = true ∧ uStatus = JobStatus.Failed ∧ maxRetry ≤ uFails
      then true else false
    | none => false

/-- Oracle: every resolution / execution succeeds. -/
def allTrue : String → Bool := fun _ => true

/-- Oracle: every job type has an executor. -/
def allTypes : JobType → Bool := fun _ => true

/-- A single script job named A, no successors. -/
def jobW1 : Job := { Name := "A", type := JobType.ScriptJob, Post := [] }

/-- One-job DAG for concrete instantiations. -/
def dagW1 : DAG := { jobs := [("A", jobW1)], relations := [] }

/-- Fresh state for `dagW1`: A ready, nothing persisted. -/
def stW1 : SchedState :=
  { inDegrees := [("A", 0)], status := [], fails := [], statuses := [] }

/-- State of `dagW1` after running the wave `[jobW1]` from `stW1`. -/
def st1W1 : SchedState :=
  { inDegrees := [("A", 0)], status := [("A", JobStatus.Finished)], fails := [],
    statuses := [("A", JobStatus.Finished)] }

/-- A job C with successor D, used for the dependence-update instances. -/
def jobW2 : Job := { Name := "C", type := JobType.ScriptJob, Post := ["D"] }

/-- Two-job DAG C → D with a strict edge (no relation recorded as non-strict). -/
def dagW2 : DAG :=
  { jobs := [("C", jobW2), ("D", { Name := "D", type := JobType.ScriptJob, Post := [] })],
    relations := [] }

/-- State where C has just finished and D still has in-degree 1. -/
def stW2 : SchedState :=
  { inDegrees := [("D", 1)], status := [("C", JobStatus.Finished)], fails := [],
    statuses := [] }

/-- The empty DAG. -/
def dagEmpty : DAG := { jobs := [], relations := [] }

/-- The empty scheduler state. -/
def stEmpty : SchedState := { inDegrees := [], status := [], fails := [], statuses := [] }

/-- Resume scenario job A (already finished in the store). -/
def jobA5 : Job := { Name := "A", type := JobType.ScriptJob, Post := [] }

/-- Resume scenario job B (already finished in the store). -/
def jobB5 : Job := { Name := "B", type := JobType.ScriptJob, Post := [] }

/-- Resume scenario job C (left `Started` by the crashed first run), with
downstream job D. -/
def jobC5 : Job := { Name := "C", type := JobType.ScriptJob, Post := ["D"] }

/-- Resume scenario job D, strictly downstream of C. -/
def jobD5 : Job := { Name := "D", type := JobType.ScriptJob, Post := [] }

/-- The resume-after-crash DAG of spec scenario 5: jobs A, B, C and C → D. -/
def dagResume : DAG :=
  { jobs := [("A", jobA5), ("B", jobB5), ("C", jobC5), ("D", jobD5)],
    relations := [("C", [("D", { NonStrict := false })])] }

/-- Start state of the second run: fresh in-memory state, persistent store
holding A,B → Finished and C → Started. -/
def stResume : SchedState :=
  { inDegrees := [("A", 0), ("B", 0), ("C", 0), ("D", 1)],
    status := [], fails := [],
    statuses := [("A", JobStatus.Finished), ("B", JobStatus.Finished),
                 ("C", JobStatus.Started)] }

/-- A step file with no vars, dos or deps. -/
def stepEmptyXML : XMLStep := { Name := "s", Var := [], Dep := [], Do := [] }

/-- Parser oracles whose calculator always fails. -/
def oEvalFail : ParserOracles :=
  { readStep := fun _ => some (some stepEmptyXML),
    readJob := fun _ => some none,
    eval := fun _ => Except.error "var eval failed",
    isValid := fun _ _ _ => true }

/-- Parser oracles whose calculator always succeeds with the empty map. -/
def oEvalOk : ParserOracles :=
  { readStep := fun _ => some (some stepEmptyXML),
    readJob := fun _ => some none,
    eval := fun _ => Except.ok [],
    isValid := fun _ _ _ => true }

/-- A command run whose child exits 0 and hits no other error. -/
def cmdWaitOk : CmdOracle :=
  { stdoutPipeErr := none, stderrPipeErr := none, startErr := none,
    stderrScanErr := none, stdoutScanErr := none, wait := WaitOutcome.success }

/-- A command run whose child exits with status 2. -/
def cmdExit2 : CmdOracle :=
  { stdoutPipeErr := none, stderrPipeErr := none, startErr := none,
    stderrScanErr := none, stdoutScanErr := none,
    wait := WaitOutcome.exitError true 2 }

/-- A command run whose child exits with status 7. -/
def cmdExit7 : CmdOracle :=
  { stdoutPipeErr := none, stderrPipeErr := none, startErr := none,
    stderrScanErr := none, stdoutScanErr := none,
    wait := WaitOutcome.exitError true 7 }

/-- A dummy job named X. -/
def jobDummyW : Job := { Name := "X", type := JobType.DummyJob, Post := [] }

/-- A store in which X is already persisted as finished. -/
def storeX : List (String × JobStatus) := [("X", JobStatus.Finished)]

/-- A script job named Y. -/
def jobScriptW : Job := { Name := "Y", type := JobType.ScriptJob, Post := [] }

/-- A store in which Y is already persisted as finished. -/
def storeY : List (String × JobStatus) := [("Y", JobStatus.Finished)]

/-- Oracle: resolution fails for every job. -/
def neverResolve : String → Bool := fun _ => false

/-!
Lemmas about the association-list map operations.
-/

theorem mapLookup_set_self {α : Type} (l : List (String × α)) (k : String) (v : α) :
    mapLookup (mapSet l k v) k = some v := by
  induction l with
  | nil => simp [mapSet, mapLookup]
  | cons p rest ih =>
    by_cases h : p.1 = k
    · simp [mapSet, h, mapLookup]
    · simp [mapSet, h, mapLookup, ih]

theorem mapLookup_set_ne {α : Type} (l : List (String × α)) (k k' : String) (v : α)
    (h : k' ≠ k) : mapLookup (mapSet l k v) k' = mapLookup l k' := by
  induction l with
  | nil => simp [mapSet, mapLookup, Ne.symm h]
  | cons p rest ih =>
    by_cases hp : p.1 = k
    · simp [mapSet, mapLookup, hp, Ne.symm h]
    · simp [mapSet, mapLookup, hp, ih]

theorem mapGetD_set_self {α : Type} (l : List (String × α)) (k : String) (v d : α) :
    mapGetD (mapSet l k v) k d = v := by
  simp [mapGetD, mapLookup_set_self]

theorem mapGetD_set_ne {α : Type} (l : List (String × α)) (k k' : String) (v d : α)
    (h : k' ≠ k) : mapGetD (mapSet l k v) k' d = mapGetD l k' d := by
  simp [mapGetD, mapLookup_set_ne l k k' v h]

theorem mapLookup_erase_self {α : Type} (l : List (String × α)) (k : String) :
    mapLookup (mapErase l k) k = none := by
  induction l with
  | nil => simp [mapErase, mapLookup]
  | cons p rest ih =>
    by_cases hp : p.1 = k
    · simp [mapErase, hp, ih]
    · simp [mapErase, mapLookup, hp, ih]

theorem mapLookup_erase_ne {α : Type} (l : List (String × α)) (k k' : String)
    (h : k' ≠ k) : mapLookup (mapErase l k) k' = mapLookup l k' := by
  induction l with
  | nil => simp [mapErase]
  | cons p rest ih =>
    by_cases hp : p.1 = k
    · simp [mapErase, mapLookup, hp, Ne.symm h, ih]
    · simp [mapErase, mapLookup, hp, ih]

theorem mapGetD_erase_self {α : Type} (l : List (String × α)) (k : String) (d : α) :
    mapGetD (mapErase l k) k d = d := by
  simp [mapGetD, mapLookup_erase_self]

theorem mapGetD_erase_ne {α : Type} (l : List (String × α)) (k k' : String) (d : α)
    (h : k' ≠ k) : mapGetD (mapErase l k) k' d = mapGetD l k' d := by
  simp [mapGetD, mapLookup_erase_ne l k k' h]

theorem keysNodup_cons {α : Type} {p : String × α} {rest : List (String × α)}
    (h : KeysNodup (p :: rest)) : p.1 ∉ rest.map Prod.fst ∧ KeysNodup rest := by
  simpa [KeysNodup] using h

theorem keysNodup_value_unique {α : Type} {l : List (String × α)} (h : KeysNodup l)
    {k : String} {a b : α} (ha : (k, a) ∈ l) (hb : (k, b) ∈ l) : a = b := by
  induction l with
  | nil => cases ha
  | cons p rest ih =>
    obtain ⟨hnotin, hrest⟩ := keysNodup_cons h
    rcases List.mem_cons.mp ha with h1 | h1
    · rcases List.mem_cons.mp hb with h2 | h2
      · have h12 : (k, a) = (k, b) := h1.trans h2.symm
        exact (Prod.mk.injEq k a k b ▸ h12 : k = k ∧ a = b).2
      · exfalso
        have hk : k ∈ rest.map Prod.fst := List.mem_map_of_mem Prod.fst h2
        rw [← h1] at hnotin
        exact hnotin hk
    · rcases List.mem_cons.mp hb with h2 | h2
      · exfalso
        have hk : k ∈ rest.map Prod.fst := List.mem_map_of_mem Prod.fst h1
        rw [← h2] at hnotin
        exact hnotin hk
      · exact ih hrest h1 h2

/-!
Lemmas about queue generation.
-/

theorem genRunQueueGo_mem (d : DAG) (maxRetry : Nat) (st : SchedState) :
    ∀ (l : List (String × Int)) (q : List Job),
      genRunQueueGo d maxRetry st l = some q →
      ∀ job : Job,
        (job ∈ q ↔ ∃ name indeg, (name, indeg) ∈ l ∧
          mapLookup d.jobs name = some job ∧ indeg = 0 ∧
          statusGet st.status job.Name ≠ JobStatus.Finished ∧
          statusGet st.status job.Name ≠ JobStatus.Started ∧
          failsGet st.fails job.Name < maxRetry) := by
  intro l
  induction l with
  | nil =>
    intro q hq job
    simp only [genRunQueueGo, Option.some.injEq] at hq
    subst hq
    simp
  | cons p rest ih =>
    obtain ⟨name, indeg⟩ := p
    intro q hq job
    simp only [genRunQueueGo] at hq
    cases hlook : mapLookup d.jobs name with
    | none => rw [hlook] at hq; exact absurd hq (by simp)
    | some job0 =>
      rw [hlook] at hq
      cases hrest : genRunQueueGo d maxRetry st rest with
      | none => rw [hrest] at hq; exact absurd hq (by simp)
      | some q0 =>
        rw [hrest] at hq
        simp only at hq
        by_cases hc : indeg = 0 ∧ statusGet st.status job0.Name ≠ JobStatus.Finished ∧
            statusGet st.status job0.Name ≠ JobStatus.Started ∧
            failsGet st.fails job0.Name < maxRetry
        · rw [if_pos hc] at hq
          obtain rfl : job0 :: q0 = q := Option.some.inj hq
          constructor
          · intro hmem
            rcases List.mem_cons.mp hmem with heq | hmem0
            · subst heq
              exact ⟨name, indeg, List.mem_cons_self _ _, hlook, hc.1, hc.2.1, hc.2.2.1,
                hc.2.2.2⟩
            · obtain ⟨n, i, hmem', h4, h5, h6, h7, h8⟩ := (ih q0 hrest job).mp hmem0
              exact ⟨n, i, List.mem_cons_of_mem _ hmem', h4, h5, h6, h7, h8⟩
          · rintro ⟨n, i, hmemni, hlookn, hi, h1, h2, h3⟩
            rcases List.mem_cons.mp hmemni with heq | hmem'
            · obtain ⟨rfl, rfl⟩ := Prod.ext_iff.mp heq
              have hj : job0 = job := Option.some.inj (hlook.symm.trans hlookn)
              rw [hj]
              exact List.mem_cons_self _ _
            · exact List.mem_cons_of_mem _
                ((ih q0 hrest job).mpr ⟨n, i, hmem', hlookn, hi, h1, h2, h3⟩)
        · rw [if_neg hc] at hq
          obtain rfl : q0 = q := Option.some.inj hq
          constructor
          · intro hmem
            obtain ⟨n, i, hmem', h4, h5, h6, h7, h8⟩ := (ih q0 hrest job).mp hmem
            exact ⟨n, i, List.mem_cons_of_mem _ hmem', h4, h5, h6, h7, h8⟩
          · rintro ⟨n, i, hmemni, hlookn, hi, h1, h2, h3⟩
            rcases List.mem_cons.mp hmemni with heq | hmem'
            · exfalso
              obtain ⟨rfl, rfl⟩ := Prod.ext_iff.mp heq
              have hj : job0 = job := Option.some.inj (hlook.symm.trans hlookn)
              rw [hj] at hc
              exact hc ⟨hi, h1, h2, h3⟩
            · exact (ih q0 hrest job).mpr ⟨n, i, hmem', hlookn, hi, h1, h2, h3⟩

theorem genRunQueueGo_names (d : DAG) (maxRetry : Nat) (st : SchedState)
    (hwf : ∀ n j, mapLookup d.jobs n = some j → j.Name = n) :
    ∀ (l : List (String × Int)) (q : List Job), KeysNodup l →
      genRunQueueGo d maxRetry st l = some q →
      (q.map Job.Name).Nodup ∧ ∀ j ∈ q, j.Name ∈ l.map Prod.fst := by
  intro l
  induction l with
  | nil =>
    intro q _ hq
    simp only [genRunQueueGo, Option.some.injEq] at hq
    subst hq
    simp
  | cons p rest ih =>
    obtain ⟨name, indeg⟩ := p
    intro q hnd hq
    obtain ⟨hnotin, hndrest⟩ := keysNodup_cons hnd
    simp only [genRunQueueGo] at hq
    cases hlook : mapLookup d.jobs name with
    | none => rw [hlook] at hq; exact absurd hq (by simp)
    | some job0 =>
      rw [hlook] at hq
      cases hrest : genRunQueueGo d maxRetry st rest with
      | none => rw [hrest] at hq; exact absurd hq (by simp)
      | some q0 =>
        rw [hrest] at hq
        simp only at hq
        obtain ⟨hnod0, hsub0⟩ := ih q0 hndrest hrest
        have hname : job0.Name = name := hwf name job0 hlook
        by_cases hc : indeg = 0 ∧ statusGet st.status job0.Name ≠ JobStatus.Finished ∧
            statusGet st.status job0.Name ≠ JobStatus.Started ∧
            failsGet st.fails job0.Name < maxRetry
        · rw [if_pos hc] at hq
          obtain rfl : job0 :: q0 = q := Option.some.inj hq
          constructor
          · rw [List.map_cons]
            refine List.nodup_cons.mpr ⟨?_, hnod0⟩
            intro hmem
            obtain ⟨j, hj, hjname⟩ := List.mem_map.mp hmem
            have : j.Name ∈ rest.map Prod.fst := hsub0 j hj
            rw [hjname, hname] at this
            exact hnotin this
          · intro j hj
            rcases List.mem_cons.mp hj with heq | hmem'
            · subst heq
              rw [List.map_cons, hname]
              exact List.mem_cons_self _ _
            · exact List.mem_cons_of_mem _ (hsub0 j hmem')
        · rw [if_neg hc] at hq
          obtain rfl : q0 = q := Option.some.inj hq
          exact ⟨hnod0, fun j hj => List.mem_cons_of_mem _ (hsub0 j hj)⟩

/-!
Lemmas about waves and post-wave bookkeeping.
-/

theorem runQueue_preserves (ro eo : String → Bool) (he : JobType → Bool) :
    ∀ (q : List Job) (st st1 : SchedState),
      runQueue ro eo he q st = some st1 →
      st1.fails = st.fails ∧ st1.inDegrees = st.inDegrees := by
  intro q
  induction q with
  | nil =>
    intro st st1 h
    simp only [runQueue, Option.some.injEq] at h
    subst h
    exact ⟨rfl, rfl⟩
  | cons job rest ih =>
    intro st st1 h
    simp only [runQueue] at h
    cases hd : dispatchJob ro eo he job st.statuses with
    | none => rw [hd] at h; exact absurd h (by simp)
    | some r =>
      rw [hd] at h
      simp only at h
      have hres := ih _ _ h
      exact hres

theorem updateFailCount_inDegrees (st : SchedState) (job : Job) :
    (updateFailCount st job).inDegrees = st.inDegrees := by
  unfold updateFailCount
  split <;> rfl

theorem updateFailCount_status (st : SchedState) (job : Job) :
    (updateFailCount st job).status = st.status := by
  unfold updateFailCount
  split <;> rfl

theorem updateDependences_fails (d : DAG) (mr : Nat) (st : SchedState) (job : Job) :
    (updateDependences d mr st job).fails = st.fails := rfl

theorem updateDependences_status (d : DAG) (mr : Nat) (st : SchedState) (job : Job) :
    (updateDependences d mr st job).status = st.status := rfl

theorem updateDepStep_get_ne (d : DAG) (mr : Nat) (un : String) (us : JobStatus)
    (uf : Nat) (ind : List (String × Int)) (p w : String) (h : w ≠ p) :
    mapGetD (updateDepStep d mr un us uf ind p) w 0 = mapGetD ind w 0 := by
  simp only [updateDepStep]
  split
  · rfl
  · split
    · exact mapGetD_set_ne _ _ _ _ _ h
    · split
      · split
        · exact mapGetD_set_ne _ _ _ _ _ h
        · rfl
      · rfl

theorem updateDepStep_get_self (d : DAG) (mr : Nat) (un : String) (us : JobStatus)
    (uf : Nat) (ind : List (String × Int)) (p : String) :
    mapGetD (updateDepStep d mr un us uf ind p) p 0 =
      if mapGetD ind p 0 ≠ 0 ∧ unblocks d mr un us uf p = true
      then mapGetD ind p 0 - 1 else mapGetD ind p 0 := by
  by_cases h0 : mapGetD ind p 0 = 0
  · simp [updateDepStep, unblocks, h0]
  · by_cases hf : us = JobStatus.Finished
    · simp [updateDepStep, unblocks, h0, hf, mapGetD_set_self]
    · cases hrel : relLookup d.relations un p with
      | none => simp [updateDepStep, unblocks, h0, hf, hrel]
      | some r =>
        by_cases hcond : r.NonStrict = true ∧ us = JobStatus.Failed ∧ mr ≤ uf
        · simp [updateDepStep, unblocks, h0, hf, hrel, hcond, mapGetD_set_self]
        · simp [updateDepStep, unblocks, h0, hf, hrel, hcond]

theorem foldl_updateDepStep_not_mem (d : DAG) (mr : Nat) (un : String)
    (us : JobStatus) (uf : Nat) :
    ∀ (l : List String) (ind : List (String × Int)) (w : String), w ∉ l →
      mapGetD (l.foldl (updateDepStep d mr un us uf) ind) w 0 = mapGetD ind w 0 := by
  intro l
  induction l with
  | nil => intro ind w _; rfl
  | cons p rest ih =>
    intro ind w hw
    have hwp : w ≠ p := fun h => hw (h ▸ List.mem_cons_self p rest)
    have hwrest : w ∉ rest := fun h => hw (List.mem_cons_of_mem _ h)
    simp only [List.foldl_cons]
    rw [ih _ w hwrest, updateDepStep_get_ne _ _ _ _ _ _ _ _ hwp]

theorem foldl_updateDepStep_mem (d : DAG) (mr : Nat) (un : String)
    (us : JobStatus) (uf : Nat) :
    ∀ (l : List String) (ind : List (String × Int)) (v : String),
      l.Nodup → v ∈ l →
      mapGetD (l.foldl (updateDepStep d mr un us uf) ind) v 0 =
        if mapGetD ind v 0 ≠ 0 ∧ unblocks d mr un us uf v = true
        then mapGetD ind v 0 - 1 else mapGetD ind v 0 := by
  intro l
  induction l with
  | nil => intro ind v _ hv; cases hv
  | cons p rest ih =>
    intro ind v hnd hv
    obtain ⟨hp, hndrest⟩ := List.nodup_cons.mp hnd
    simp only [List.foldl_cons]
    rcases List.mem_cons.mp hv with rfl | hvrest
    · rw [foldl_updateDepStep_not_mem d mr un us uf rest _ v hp]
      exact updateDepStep_get_self d mr un us uf ind v
    · have hvp : v ≠ p := fun h => hp (h ▸ hvrest)
      rw [ih _ v hndrest hvrest, updateDepStep_get_ne _ _ _ _ _ _ _ _ hvp]

theorem updateFailCount_failsGet_failed (st : SchedState) (job : Job)
    (h : statusGet st.status job.Name = JobStatus.Failed) :
    failsGet (updateFailCount st job).fails job.Name =
      failsGet st.fails job.Name + 1 := by
  simp only [updateFailCount, h]
  cases hl : mapLookup st.fails job.Name with
  | none => simp [failsGet, mapGetD, hl, mapLookup_set_self]
  | some n => simp [failsGet, mapGetD, hl, mapLookup_set_self]

theorem updateFailCount_failsGet_finished (st : SchedState) (job : Job)
    (h : statusGet st.status job.Name = JobStatus.Finished) :
    failsGet (updateFailCount st job).fails job.Name = 0 := by
  simp only [updateFailCount, h]
  simp [failsGet, mapGetD, mapLookup_erase_self]

theorem updateFailCount_id (st : SchedState) (job : Job)
    (h1 : statusGet st.status job.Name ≠ JobStatus.Failed)
    (h2 : statusGet st.status job.Name ≠ JobStatus.Finished) :
    updateFailCount st job = st := by
  unfold updateFailCount
  split
  · next heq => exact absurd heq h1
  · next heq => exact absurd heq h2
  · rfl

theorem updateFailCount_failsGet_ne (st : SchedState) (job : Job) (k : String)
    (h : k ≠ job.Name) :
    failsGet (updateFailCount st job).fails k = failsGet st.fails k := by
  unfold updateFailCount
  split
  · split
    · simp [failsGet, mapGetD_set_ne _ _ _ _ _ h]
    · simp [failsGet, mapGetD_set_ne _ _ _ _ _ h]
  · simp [failsGet, mapGetD_erase_ne _ _ _ _ h]
  · rfl

theorem postWave_cons (d : DAG) (mr : Nat) (j : Job) (rest : List Job)
    (st : SchedState) :
    postWave d mr (j :: rest) st =
      postWave d mr rest (updateDependences d mr (updateFailCount st j) j) := rfl

theorem postWave_fails_bounded (d : DAG) (mr : Nat) :
    ∀ (q : List Job) (st : SchedState),
      (q.map Job.Name).Nodup →
      (∀ j ∈ q, failsGet st.fails j.Name < mr) →
      (∀ k, failsGet st.fails k ≤ mr) →
      ∀ k, failsGet (postWave d mr q st).fails k ≤ mr := by
  intro q
  induction q with
  | nil => intro st _ _ hb k; exact hb k
  | cons j rest ih =>
    intro st hnd hlt hb k
    rw [List.map_cons] at hnd
    obtain ⟨hjn, hndrest⟩ := List.nodup_cons.mp hnd
    rw [postWave_cons]
    have hfails : (updateDependences d mr (updateFailCount st j) j).fails =
        (updateFailCount st j).fails := updateDependences_fails d mr _ j
    apply ih _ hndrest
    · intro j' hj'
      have hne : j'.Name ≠ j.Name := fun h => hjn (h ▸ List.mem_map_of_mem Job.Name hj')
      rw [hfails, updateFailCount_failsGet_ne st j j'.Name hne]
      exact hlt j' (List.mem_cons_of_mem _ hj')
    · intro k'
      rw [hfails]
      by_cases hk : k' = j.Name
      · subst hk
        cases hs : statusGet st.status j.Name with
        | Failed =>
          rw [updateFailCount_failsGet_failed st j hs]
          have := hlt j (List.mem_cons_self _ _)
          omega
        | Finished =>
          rw [updateFailCount_failsGet_finished st j hs]
          exact Nat.zero_le mr
        | NotStarted =>
          rw [updateFailCount_id st j (by rw [hs]; simp) (by rw [hs]; simp)]
          exact hb _
        | Started =>
          rw [updateFailCount_id st j (by rw [hs]; simp) (by rw [hs]; simp)]
          exact hb _
      · rw [updateFailCount_failsGet_ne st j k' hk]
        exact hb _

theorem updateDepStep_nonneg (d : DAG) (mr : Nat) (un : String) (us : JobStatus)
    (uf : Nat) (ind : List (String × Int)) (p : String)
    (h : ∀ k, 0 ≤ mapGetD ind k 0) :
    ∀ k, 0 ≤ mapGetD (updateDepStep d mr un us uf ind p) k 0 := by
  intro k
  by_cases hk : k = p
  · subst hk
    rw [updateDepStep_get_self]
    split
    · next hc =>
      obtain ⟨hne, _⟩ := hc
      have := h k
      omega
    · exact h k
  · rw [updateDepStep_get_ne _ _ _ _ _ _ _ _ hk]
    exact h k

theorem foldl_updateDepStep_nonneg (d : DAG) (mr : Nat) (un : String)
    (us : JobStatus) (uf : Nat) :
    ∀ (l : List String) (ind : List (String × Int)),
      (∀ k, 0 ≤ mapGetD ind k 0) →
      ∀ k, 0 ≤ mapGetD (l.foldl (updateDepStep d mr un us uf) ind) k 0 := by
  intro l
  induction l with
  | nil => intro ind h k; exact h k
  | cons p rest ih =>
    intro ind h k
    simp only [List.foldl_cons]
    exact ih _ (updateDepStep_nonneg d mr un us uf ind p h) k

/-!
The claims.
-/

/-- Claim C1: the ready queue generated at the top of a wave contains a job
exactly when all three conditions hold — its remaining in-degree is 0, its
status is neither Finished nor Started, and its fail count is strictly below
MaxRetry — so in particular a job whose fail count is at or above MaxRetry is
never enqueued.  Stated for any well-formed DAG state: the job map names its
jobs by their keys and the in-degree keys are unique, as for Go maps. -/
theorem genRunQueue_ready_iff (d : DAG) (maxRetry : Nat) (st : SchedState)
    (q : List Job) (name : String) (indeg : Int) (job : Job)
    (hwf : ∀ n j, mapLookup d.jobs n = some j → j.Name = n)
    (hnd : KeysNodup st.inDegrees)
    (hq : genRunQueue d maxRetry st = some q)
    (hmem : (name, indeg) ∈ st.inDegrees)
    (hjob : mapLookup d.jobs name = some job) :
    job ∈ q ↔ (indeg = 0 ∧ statusGet st.status job.Name ≠ JobStatus.Finished ∧
      statusGet st.status job.Name ≠ JobStatus.Started ∧
      failsGet st.fails job.Name < maxRetry) := by
  have hchar := genRunQueueGo_mem d maxRetry st st.inDegrees q hq job
  constructor
  · intro h
    obtain ⟨n, i, hin, hlook, hi, h1, h2, h3⟩ := hchar.mp h
    have hn : job.Name = n := hwf n job hlook
    have hname : job.Name = name := hwf name job hjob
    have hnn : n = name := by rw [← hn, hname]
    subst hnn
    have hii : i = indeg := keysNodup_value_unique hnd hin hmem
    subst hii
    exact ⟨hi, h1, h2, h3⟩
  · rintro ⟨h0, h1, h2, h3⟩
    exact hchar.mpr ⟨name, indeg, hmem, hjob, h0, h1, h2, h3⟩

/-- Witness for C1: in the one-job DAG with a fresh state, job A satisfies the
three conditions and is in the generated queue. -/
theorem genRunQueue_ready_iff_witness :
    genRunQueue dagW1 3 stW1 = some [jobW1] ∧ jobW1 ∈ [jobW1] := by
  have hwf : ∀ n j, mapLookup dagW1.jobs n = some j → j.Name = n := by
    intro n j h
    simp only [dagW1, mapLookup] at h
    split at h
    · next heq =>
      obtain rfl := Option.some.inj h
      rw [← heq]
      rfl
    · exact Option.noConfusion h
  refine ⟨rfl, ?_⟩
  exact (genRunQueue_ready_iff dagW1 3 stW1 [jobW1] "A" 0 jobW1 hwf
    (by unfold KeysNodup; decide) rfl (by decide) (by decide)).mpr
    ⟨rfl, by decide, by decide, by decide⟩

/-- Claim C2: for a completed predecessor u and successor v, post-wave
bookkeeping decrements InDegrees[v] exactly when u finished, or u failed with
its retries exhausted over a non-strict edge (the `unblocks` condition); in
every other case InDegrees[v] is unchanged, and a successor whose in-degree is
already 0 is never decremented (the condition requires it to be non-zero). -/
theorem updateDependences_decrement_iff (d : DAG) (mr : Nat) (st : SchedState)
    (u : Job) (v : String) (hv : v ∈ u.Post) (hnd : u.Post.Nodup) :
    mapGetD (updateDependences d mr st u).inDegrees v 0 =
      if mapGetD st.inDegrees v 0 ≠ 0 ∧
         unblocks d mr u.Name (statusGet st.status u.Name)
           (failsGet st.fails u.Name) v = true
      then mapGetD st.inDegrees v 0 - 1
      else mapGetD st.inDegrees v 0 := by
  have h := foldl_updateDepStep_mem d mr u.Name (statusGet st.status u.Name)
    (failsGet st.fails u.Name) u.Post st.inDegrees v hnd hv
  exact h

/-- Witness for C2: C finished with successor D at in-degree 1, which drops
to 0. -/
theorem updateDependences_decrement_iff_witness :
    mapGetD (updateDependences dagW2 3 stW2 jobW2).inDegrees "D" 0 = 0 := by
  rw [updateDependences_decrement_iff dagW2 3 stW2 jobW2 "D" (by decide) (by decide)]
  decide

/-- Claim C3: the wave loop ends exactly when a freshly generated ready queue
is empty, and the run then returns success iff the Fails map is empty,
otherwise the some-jobs-failed error.  Part one: whenever the loop returns, the
final state's fresh queue is empty and the result is determined by Fails
emptiness; part two: from any state whose fresh queue is empty the loop
returns immediately with that verdict. -/
theorem runLoop_termination (ro eo : String → Bool) (he : JobType → Bool)
    (d : DAG) (mr : Nat) :
    (∀ fuel st r stF, runLoop ro eo he d mr fuel st = some (r, stF) →
       genRunQueue d mr stF = some [] ∧
       r = (if stF.fails.isEmpty then RunResult.ok else RunResult.someJobsFailed)) ∧
    (∀ fuel st, genRunQueue d mr st = some [] →
       runLoop ro eo he d mr (fuel + 1) st =
         some ((if st.fails.isEmpty then RunResult.ok else RunResult.someJobsFailed),
           st)) := by
  constructor
  · intro fuel
    induction fuel with
    | zero => intro st r stF h; simp [runLoop] at h
    | succ n ih =>
      intro st r stF h
      simp only [runLoop] at h
      cases hq : genRunQueue d mr st with
      | none => rw [hq] at h; exact absurd h (by simp)
      | some q =>
        rw [hq] at h
        simp only at h
        split at h
        · next hqe =>
          have hqnil : q = [] := by
            cases q with
            | nil => rfl
            | cons a t => simp [List.isEmpty] at hqe
          injection h with hpair
          injection hpair with hr hst
          subst hst
          subst hqnil
          exact ⟨hq, hr.symm⟩
        · next hqe =>
          cases hrq : runQueue ro eo he q st with
          | none => rw [hrq] at h; exact absurd h (by simp)
          | some st1 =>
            rw [hrq] at h
            simp only at h
            exact ih _ _ _ h
  · intro fuel st h
    simp [runLoop, h]

/-- Witness for C3: on the empty DAG with empty Fails the loop returns at once
with success. -/
theorem runLoop_termination_witness :
    runLoop allTrue allTrue allTypes dagEmpty 3 1 stEmpty =
      some (RunResult.ok, stEmpty) := by
  have h := (runLoop_termination allTrue allTrue allTypes dagEmpty 3).2 0 stEmpty rfl
  simpa [stEmpty] using h

/-- Claim C4: `Fails[j] ≤ MaxRetry` holds at all times and no job is dispatched
at or above MaxRetry.  Part one: every job admitted to a wave has fail count
strictly below MaxRetry.  Part two: one full wave — dispatch (which leaves
Fails untouched) plus post-wave bookkeeping — preserves the bound
`Fails ≤ MaxRetry`; together with the empty initial Fails map this gives the
bound at every point of a run. -/
theorem fails_bounded_invariant (d : DAG) (mr : Nat) :
    (∀ st q job, genRunQueue d mr st = some q → job ∈ q →
        failsGet st.fails job.Name < mr) ∧
    (∀ (ro eo : String → Bool) (he : JobType → Bool) (st : SchedState)
        (q : List Job) (st1 : SchedState),
        (∀ n j, mapLookup d.jobs n = some j → j.Name = n) →
        KeysNodup st.inDegrees →
        (∀ k, failsGet st.fails k ≤ mr) →
        genRunQueue d mr st = some q →
        runQueue ro eo he q st = some st1 →
        ∀ k, failsGet (postWave d mr q st1).fails k ≤ mr) := by
  constructor
  · intro st q job hq hmem
    obtain ⟨n, i, _, _, _, _, _, h8⟩ :=
      (genRunQueueGo_mem d mr st st.inDegrees q hq job).mp hmem
    exact h8
  · intro ro eo he st q st1 hwf hnd hb hq hrq
    obtain ⟨hfails, _⟩ := runQueue_preserves ro eo he q st st1 hrq
    obtain ⟨hqnd, _⟩ := genRunQueueGo_names d mr st hwf st.inDegrees q hnd hq
    apply postWave_fails_bounded d mr q st1 hqnd
    · intro j hj
      rw [hfails]
      obtain ⟨n, i, _, _, _, _, _, h8⟩ :=
        (genRunQueueGo_mem d mr st st.inDegrees q hq j).mp hj
      exact h8
    · intro k
      rw [hfails]
      exact hb k

/-- Witness for C4 at the one-job DAG with MaxRetry 2: the dispatched job is
below the bound, and the bound survives the wave. -/
theorem fails_bounded_invariant_witness :
    failsGet stW1.fails jobW1.Name < 2 ∧
    failsGet (postWave dagW1 2 [jobW1] st1W1).fails "A" ≤ 2 := by
  have hwf : ∀ n j, mapLookup dagW1.jobs n = some j → j.Name = n := by
    intro n j h
    simp only [dagW1, mapLookup] at h
    split at h
    · next heq =>
      obtain rfl := Option.some.inj h
      rw [← heq]
      rfl
    · exact Option.noConfusion h
  constructor
  · exact (fails_bounded_invariant dagW1 2).1 stW1 [jobW1] jobW1 rfl (by decide)
  · refine (fails_bounded_invariant dagW1 2).2 allTrue allTrue allTypes stW1 [jobW1]
      st1W1 hwf (by unfold KeysNodup; decide) ?_ rfl rfl "A"
    intro k
    simp [stW1, failsGet, mapGetD, mapLookup]

/-- Claim C6: `InDegrees[j] ≥ 0` at all times: updateDependences preserves
pointwise nonnegativity (the only operation that writes InDegrees, and it
skips successors already at 0), while runQueue and updateFailCount leave
InDegrees unchanged. -/
theorem inDegrees_nonneg_invariant :
    (∀ (d : DAG) (mr : Nat) (st : SchedState) (job : Job),
        (∀ k, 0 ≤ mapGetD st.inDegrees k 0) →
        ∀ k, 0 ≤ mapGetD (updateDependences d mr st job).inDegrees k 0) ∧
    (∀ (ro eo : String → Bool) (he : JobType → Bool) (q : List Job)
        (st st1 : SchedState),
        runQueue ro eo he q st = some st1 → st1.inDegrees = st.inDegrees) ∧
    (∀ (st : SchedState) (job : Job),
        (updateFailCount st job).inDegrees = st.inDegrees) := by
  refine ⟨?_, ?_, ?_⟩
  · intro d mr st job h k
    exact foldl_updateDepStep_nonneg d mr job.Name (statusGet st.status job.Name)
      (failsGet st.fails job.Name) job.Post st.inDegrees h k
  · intro ro eo he q st st1 h
    exact (runQueue_preserves ro eo he q st st1 h).2
  · intro st job
    exact updateFailCount_inDegrees st job

/-- Witness for C6 at the C → D instance: D's in-degree stays nonnegative
through the decrement, and the other operations leave InDegrees untouched. -/
theorem inDegrees_nonneg_invariant_witness :
    (0 ≤ mapGetD (updateDependences dagW2 3 stW2 jobW2).inDegrees "D" 0) ∧
    st1W1.inDegrees = stW1.inDegrees ∧
    (updateFailCount stW2 jobW2).inDegrees = stW2.inDegrees := by
  refine ⟨?_, ?_, ?_⟩
  · refine (inDegrees_nonneg_invariant).1 dagW2 3 stW2 jobW2 ?_ "D"
    intro k
    by_cases hk : ("D" : String) = k
    · subst hk
      decide
    · simp [stW2, mapGetD, mapLookup, hk]
  · exact (inDegrees_nonneg_invariant).2.1 allTrue allTrue allTypes [jobW1] stW1 st1W1 rfl
  · exact (inDegrees_nonneg_invariant).2.2 stW2 jobW2

/-- Claim C5 counterexample: in the resume-after-crash scenario — persistent
store {A,B → Finished, C → Started}, D strictly downstream of C — the second
run returns nil (exit zero), because nothing enters the Fails map; the claim's
"the run exits non-zero" is false on the code. -/
theorem resume_run_exits_zero :
    (runLoop allTrue allTrue allTypes dagResume 3 3 stResume).map Prod.fst =
      some RunResult.ok := by
  rfl

/-- Claim C5 amended: on the resumed run with store {A,B → Finished,
C → Started}, A and B are skipped as finished (in-memory Finished, store
untouched), C is skipped with a warning because it is Started (in-memory
Started, store untouched), every job downstream of C stays blocked (D keeps
in-degree 1 and status NotStarted), and the run exits zero — it returns
success since the Fails map stays empty, not non-zero as the claim says. -/
theorem resume_run_behavior :
    runLoop allTrue allTrue allTypes dagResume 3 3 stResume =
      some (RunResult.ok,
        { inDegrees := [("A", 0), ("B", 0), ("C", 0), ("D", 1)],
          status := [("A", JobStatus.Finished), ("B", JobStatus.Finished),
                     ("C", JobStatus.Started)],
          fails := [],
          statuses := [("A", JobStatus.Finished), ("B", JobStatus.Finished),
                       ("C", JobStatus.Started)] }) := by
  rfl

theorem parseJobFromFile_evals_ok (o : ParserOracles) (entry workdir : String)
    (pre : Option VarMap) (jobOpt : Option JobV) (log : List EvalCall)
    (h : parseJobFromFile o entry workdir pre = Except.ok (jobOpt, log)) :
    ∀ c ∈ log, ∃ m, c.result = Except.ok m := by
  simp only [parseJobFromFile] at h
  cases hr : o.readJob (workdir ++ "/" ++ entry) with
  | none => rw [hr] at h; exact absurd h (by simp)
  | some x =>
    rw [hr] at h
    cases x with
    | none =>
      simp only at h
      injection h with hpair
      injection hpair with h1 h2
      subst h2
      intro c hc
      simp at hc
    | some j =>
      simp only at h
      split at h
      · cases ha : arrayToMap j.Var "=" with
        | none => rw [ha] at h; exact absurd h (by simp)
        | some localVar =>
          rw [ha] at h
          simp only at h
          cases heval : o.eval [pre, some localVar] with
          | error e => rw [heval] at h; exact absurd h (by simp)
          | ok lv =>
            rw [heval] at h
            simp only at h
            split at h
            · injection h with hpair
              injection hpair with h1 h2
              subst h2
              intro c hc
              obtain rfl := List.mem_singleton.mp hc
              exact ⟨lv, rfl⟩
            · exact absurd h (by simp)
      · exact absurd h (by simp)

theorem parseDos_evals_ok (o : ParserOracles) (workdir : String)
    (pre : Option VarMap) (stepVar : VarMap) :
    ∀ (dos : List XMLDo) (jobs : List (Option JobV)) (log : List EvalCall),
      parseDos o workdir pre stepVar dos = Except.ok (jobs, log) →
      ∀ c ∈ log, ∃ m, c.result = Except.ok m := by
  intro dos
  induction dos with
  | nil =>
    intro jobs log h
    simp only [parseDos] at h
    injection h with hpair
    injection hpair with h1 h2
    subst h2
    intro c hc
    simp at hc
  | cons doItem rest ih =>
    intro jobs log h
    simp only [parseDos] at h
    cases ha : arrayToMap doItem.Arg "=" with
    | none => rw [ha] at h; exact absurd h (by simp)
    | some localVar =>
      rw [ha] at h
      simp only at h
      cases heval : o.eval [pre, some stepVar, some localVar] with
      | error e => rw [heval] at h; exact absurd h (by simp)
      | ok lv =>
        rw [heval] at h
        simp only at h
        cases hjob : parseJobFromFile o doItem.Res workdir (some lv) with
        | error a => rw [hjob] at h; exact absurd h (by simp)
        | ok pr =>
          obtain ⟨jobOpt, lg⟩ := pr
          rw [hjob] at h
          simp only at h
          cases hrest : parseDos o workdir pre stepVar rest with
          | error a => rw [hrest] at h; exact absurd h (by simp)
          | ok pr2 =>
            obtain ⟨jobs0, lg2⟩ := pr2
            rw [hrest] at h
            simp only at h
            injection h with hpair
            injection hpair with h1 h2
            subst h2
            intro c hc
            rcases List.mem_cons.mp hc with rfl | hc2
            · exact ⟨lv, rfl⟩
            · rcases List.mem_append.mp hc2 with hcl | hcr
              · exact parseJobFromFile_evals_ok o doItem.Res workdir (some lv)
                  jobOpt lg hjob c hcl
              · exact ih jobs0 lg2 hrest c hcr

theorem parseDeps_evals_ok
    (parseStep : String → Option VarMap → Except PAbort (Option Step × List EvalCall))
    (o : ParserOracles) (pre : Option VarMap) (stepVar : VarMap)
    (hstep : ∀ (e : String) (pv : Option VarMap) (stepOpt : Option Step)
        (lg : List EvalCall), parseStep e pv = Except.ok (stepOpt, lg) →
        ∀ c ∈ lg, ∃ m, c.result = Except.ok m) :
    ∀ (deps : List XMLDep) (steps : List (Option Step)) (log : List EvalCall),
      parseDeps parseStep o pre stepVar deps = Except.ok (steps, log) →
      ∀ c ∈ log, ∃ m, c.result = Except.ok m := by
  intro deps
  induction deps with
  | nil =>
    intro steps log h
    simp only [parseDeps] at h
    injection h with hpair
    injection hpair with h1 h2
    subst h2
    intro c hc
    simp at hc
  | cons dep rest ih =>
    intro steps log h
    simp only [parseDeps] at h
    cases ha : arrayToMap dep.Var "=" with
    | none => rw [ha] at h; exact absurd h (by simp)
    | some localVar =>
      rw [ha] at h
      simp only at h
      cases heval : o.eval [pre, some stepVar, some localVar] with
      | error e => rw [heval] at h; exact absurd h (by simp)
      | ok lv =>
        rw [heval] at h
        simp only at h
        cases hps : parseStep dep.Res (some lv) with
        | error a => rw [hps] at h; exact absurd h (by simp)
        | ok pr =>
          obtain ⟨stepOpt, lg⟩ := pr
          rw [hps] at h
          simp only at h
          cases hrest : parseDeps parseStep o pre stepVar rest with
          | error a => rw [hrest] at h; exact absurd h (by simp)
          | ok pr2 =>
            obtain ⟨steps0, lg2⟩ := pr2
            rw [hrest] at h
            simp only at h
            injection h with hpair
            injection hpair with h1 h2
            subst h2
            intro c hc
            rcases List.mem_cons.mp hc with rfl | hc2
            · exact ⟨lv, rfl⟩
            · rcases List.mem_append.mp hc2 with hcl | hcr
              · exact hstep dep.Res (some lv) stepOpt lg hps c hcl
              · exact ih steps0 lg2 hrest c hcr

/-- Claim C7 amended: when variable evaluation fails during parsing — at the
step-var, do/dep local-var, or job-var scope — parsing aborts by panicking
with the evaluation error rather than succeeding; no ParseError value is
returned (the parse functions return only a step or job pointer).  Stated as:
any parse that returns successfully performed only successful calculator
calls, so an input on which some evaluation fails can never parse
successfully; the counterexample pins the abort to the panic path. -/
theorem parse_success_evals_ok (o : ParserOracles) :
    ∀ (fuel : Nat) (entry workdir : String) (pre : Option VarMap)
      (stepOpt : Option Step) (log : List EvalCall),
      parseStepFromFile o fuel entry workdir pre = Except.ok (stepOpt, log) →
      ∀ c ∈ log, ∃ m, c.result = Except.ok m := by
  intro fuel
  induction fuel with
  | zero =>
    intro entry workdir pre stepOpt log h
    exact absurd h (by simp [parseStepFromFile])
  | succ n ih =>
    intro entry workdir pre stepOpt log h
    simp only [parseStepFromFile] at h
    cases hr : o.readStep (workdir ++ "/" ++ entry) with
    | none => rw [hr] at h; exact absurd h (by simp)
    | some x =>
      rw [hr] at h
      cases x with
      | none =>
        simp only at h
        injection h with hpair
        injection hpair with h1 h2
        subst h2
        intro c hc
        simp at hc
      | some s =>
        simp only at h
        cases ha : arrayToMap s.Var "=" with
        | none => rw [ha] at h; exact absurd h (by simp)
        | some var0 =>
          rw [ha] at h
          simp only at h
          cases heval : o.eval [pre, some var0] with
          | error e => rw [heval] at h; exact absurd h (by simp)
          | ok stepVar =>
            rw [heval] at h
            simp only at h
            cases hdos : parseDos o workdir pre stepVar s.Do with
            | error a => rw [hdos] at h; exact absurd h (by simp)
            | ok pr =>
              obtain ⟨dos, lg1⟩ := pr
              rw [hdos] at h
              simp only at h
              cases hdeps : parseDeps (fun e pv => parseStepFromFile o n e workdir pv)
                  o pre stepVar s.Dep with
              | error a => rw [hdeps] at h; exact absurd h (by simp)
              | ok pr2 =>
                obtain ⟨deps, lg2⟩ := pr2
                rw [hdeps] at h
                simp only at h
                injection h with hpair
                injection hpair with h1 h2
                subst h2
                intro c hc
                rcases List.mem_cons.mp hc with rfl | hc2
                · exact ⟨stepVar, rfl⟩
                · rcases List.mem_append.mp hc2 with hcl | hcr
                  · exact parseDos_evals_ok o workdir pre stepVar s.Do dos lg1 hdos c hcl
                  · refine parseDeps_evals_ok _ o pre stepVar ?_ s.Dep deps lg2 hdeps c hcr
                    intro e pv so lg hps
                    exact ih e workdir pv so lg hps

/-- Claim C7 counterexample: a step file whose variable evaluation fails makes
parseStepFromFile abort through the panic path with the calculator's error —
there is no returned ParseError (the function's only return value is the step
pointer). -/
theorem parse_eval_failure_panics :
    parseStepFromFile oEvalFail 1 "entry.xml" "wd" none =
      Except.error (PAbort.panicked "var eval failed") := by
  rfl

/-- Witness for C7: a successful parse whose single calculator call succeeded. -/
theorem parse_success_evals_ok_witness :
    ∃ m, EvalCall.result ⟨[none, some []], Except.ok []⟩ = Except.ok m := by
  exact parse_success_evals_ok oEvalOk 1 "e" "w" none
    (some (Step.mk "s" [] [] [])) [⟨[none, some []], Except.ok []⟩] rfl
    ⟨[none, some []], Except.ok []⟩ (by simp)

/-- Claim C8 counterexample: a child that exits with status 2 makes CmdExec
return the pair (2, nil): the error component is nil, not a non-nil error
carrying the exit code as the claim states. -/
theorem cmdExec_nonzero_exit_nil_error :
    CmdExec cmdExit2 = CmdOutcome.ret 2 none := by
  rfl

/-- Claim C8 amended: CmdExec translates the child's exit status so that exit
status 0 yields (0, nil) and a non-zero exit status whose wait status is
available yields (code, nil): the exit code is carried in the integer return
value with a nil error, so failure is signalled by the integer, not by a
non-nil error. -/
theorem cmdExec_exit_translation (o : CmdOracle)
    (h1 : o.stdoutPipeErr = none) (h2 : o.stderrPipeErr = none)
    (h3 : o.startErr = none) (h4 : o.stderrScanErr = none)
    (h5 : o.stdoutScanErr = none) :
    (o.wait = WaitOutcome.success → CmdExec o = CmdOutcome.ret 0 none) ∧
    (∀ code : Int, o.wait = WaitOutcome.exitError true code →
      CmdExec o = CmdOutcome.ret code none) := by
  constructor
  · intro hw
    simp [CmdExec, h1, h2, h3, h4, h5, hw]
  · intro code hw
    simp [CmdExec, h1, h2, h3, h4, h5, hw]

/-- Witness for C8: concrete runs exiting 0 and 7. -/
theorem cmdExec_exit_translation_witness :
    CmdExec cmdWaitOk = CmdOutcome.ret 0 none ∧
    CmdExec cmdExit7 = CmdOutcome.ret 7 none := by
  constructor
  · exact (cmdExec_exit_translation cmdWaitOk rfl rfl rfl rfl rfl).1 rfl
  · exact (cmdExec_exit_translation cmdExit7 rfl rfl rfl rfl rfl).2 7 rfl

/-- Claim C9: a dispatched Dummy job whose resolution succeeds is set to
Finished in memory with no tracker call at all — the event list is empty and
the store is returned unchanged, for every store, including ones in which the
job is persisted as Finished or Started; hence Dummy jobs are never recorded
in the persistent status store and are never skipped by the already-finished
or already-started checks on a resumed run. -/
theorem dummy_dispatch_no_tracker (ro eo : String → Bool) (he : JobType → Bool)
    (job : Job) (store : List (String × JobStatus))
    (hd : job.type = JobType.DummyJob) (hr : ro job.Name = true) :
    dispatchJob ro eo he job store =
      some { status := JobStatus.Finished, store := store, events := [] } := by
  simp [dispatchJob, hd, hr]

/-- Witness for C9: dummy job X, persisted as Finished, is dispatched to
Finished without consulting or touching the store. -/
theorem dummy_dispatch_no_tracker_witness :
    dispatchJob allTrue allTrue allTypes jobDummyW storeX =
      some { status := JobStatus.Finished, store := storeX, events := [] } :=
  dummy_dispatch_no_tracker allTrue allTrue allTypes jobDummyW storeX rfl rfl

/-- Claim C10: ResolveJob is invoked before the persisted-status check, so a
job whose resolution fails — even one whose persisted status is Finished — is
set to Failed and that status is written through the tracker, overwriting the
previously persisted Finished record. -/
theorem resolve_failure_overwrites (ro eo : String → Bool) (he : JobType → Bool)
    (job : Job) (store : List (String × JobStatus))
    (hr : ro job.Name = false)
    (hfin : mapGetD store job.Name JobStatus.NotStarted = JobStatus.Finished) :
    dispatchJob ro eo he job store =
      some { status := JobStatus.Failed,
             store := trackerSetStatus store job.Name JobStatus.Failed,
             events := [TrackerOp.setStatusOp job.Name JobStatus.Failed] } ∧
    mapGetD (trackerSetStatus store job.Name JobStatus.Failed) job.Name
      JobStatus.NotStarted = JobStatus.Failed := by
  constructor
  · simp [dispatchJob, hr]
  · exact mapGetD_set_self store job.Name JobStatus.Failed JobStatus.NotStarted

/-- Witness for C10: Y is persisted Finished, resolution fails, and the store
afterwards records Y as Failed. -/
theorem resolve_failure_overwrites_witness :
    dispatchJob neverResolve allTrue allTypes jobScriptW storeY =
      some { status := JobStatus.Failed,
             store := trackerSetStatus storeY "Y" JobStatus.Failed,
             events := [TrackerOp.setStatusOp "Y" JobStatus.Failed] } ∧
    mapGetD (trackerSetStatus storeY "Y" JobStatus.Failed) "Y"
      JobStatus.NotStarted = JobStatus.Failed := by
  exact resolve_failure_overwrites neverResolve allTrue allTypes jobScriptW storeY rfl rfl
